import Mathlib

/-!
Verification development for the PdfViewHighlight repository
(src/src/App.jsx, with src/unnamed/part_000 an earlier variant of the same
component). The definitions below are a shallow embedding of the annotation
pipeline: the brush/eraser stroke engine (strokeTo, getLocal, the pointer
handlers of attachBrushHandlers), the open/export state flow (onOpen, onSave),
the per-page overlay construction of renderAll, and a small-step interleaving
model of renderAll's generation-token cancellation. Real numbers of the code
are modelled as rationals.
-/

namespace PdfViewHighlight

/-- An RGB color, as decoded from a hex swatch string by rgbaCss
(App.jsx lines 18-23): three channels in 0..255. -/
structure RGB where
  r : Nat
  g : Nat
  b : Nat
deriving DecidableEq

/-- A CSS `rgba(r, g, b, a)` paint style, the value assigned to
ctx.strokeStyle. -/
structure RGBA where
  r : Nat
  g : Nat
  b : Nat
  a : ℚ
deriving DecidableEq

/-- rgbaCss (App.jsx line 18): attach an alpha to a hex color. The hex
decoding itself is bijective bookkeeping; the color is modelled as its
decoded channels. -/
def rgbaCss (c : RGB) (a : ℚ) : RGBA := ⟨c.r, c.g, c.b, a⟩

/-- DEFAULT_OPACITY (App.jsx line 14). -/
def DEFAULT_OPACITY : ℚ := 22/100

/-- DEFAULT_THICKNESS (App.jsx line 15). -/
def DEFAULT_THICKNESS : ℚ := 18

/-- The canvas composite operations the code assigns to
ctx.globalCompositeOperation. -/
inductive CompositeOp where
  | sourceOver
  | destinationOut
  | multiply
deriving DecidableEq

/-- The live tool state read from the refs (colorRef, opacityRef, thickRef,
eraserRef, App.jsx lines 44-47) on an input event. `opacity` is an Option to
model the `opacityRef.current ?? DEFAULT_OPACITY` fallback of line 195. -/
structure Tool where
  color : RGB
  opacity : Option ℚ
  thickness : ℚ
  eraser : Bool
deriving DecidableEq

/-- A point in overlay canvas pixels as produced by getLocal
(App.jsx lines 173-183): coordinates plus the scaleX factor it carries. -/
structure Point where
  x : ℚ
  y : ℚ
  scaleX : ℚ
deriving DecidableEq

/-- A DOMRect as returned by canvas.getBoundingClientRect(). -/
structure Rect where
  left : ℚ
  top : ℚ
  width : ℚ
  height : ℚ
deriving DecidableEq

/-- The pixel dimensions of a canvas element (canvas.width/height). -/
structure CanvasDim where
  width : ℚ
  height : ℚ
deriving DecidableEq

/-- getLocal (App.jsx lines 173-183): convert a pointer event's client
coordinates to overlay canvas pixels, accounting for CSS size versus canvas
pixel size; the x scale factor is returned alongside. -/
def getLocal (canvas : CanvasDim) (r : Rect) (clientX clientY : ℚ) : Point :=
  let scaleX := canvas.width / r.width
  let scaleY := canvas.height / r.height
  ⟨(clientX - r.left) * scaleX, (clientY - r.top) * scaleY, scaleX⟩

/-- The drawing-context configuration and path drawn by one strokeTo call:
the observable write to the overlay for one segment. -/
structure PaintOp where
  lineWidth : ℚ
  compositeOp : CompositeOp
  strokeStyle : RGBA
  fromPt : Point
  toPt : Point
deriving DecidableEq

/-- strokeTo (App.jsx lines 185-203). `ts` is the tool state read from the
live refs at the moment of the call; `dpr` is window.devicePixelRatio. JS
falsiness of `to.scaleX || (window.devicePixelRatio || 1)` is modelled as
comparison with 0. -/
def strokeTo (ts : Tool) (dpr : ℚ) (fromPt toPt : Point) : PaintOp :=
  let pixelRatio := if toPt.scaleX ≠ 0 then toPt.scaleX else (if dpr ≠ 0 then dpr else 1)
  let lw := max 2 (ts.thickness * pixelRatio)
  let isErasing := ts.eraser
  let alpha := min (ts.opacity.getD DEFAULT_OPACITY) (25/100)
  { lineWidth := lw
    compositeOp := if isErasing then .destinationOut else .sourceOver
    strokeStyle := if isErasing then ⟨0, 0, 0, 1⟩ else rgbaCss ts.color alpha
    fromPt := fromPt
    toPt := toPt }

/-- The per-canvas handler state of attachBrushHandlers (App.jsx lines
165-219): the `drawing` flag and `last` point, plus whether the canvas
currently holds pointer capture (acquired by setPointerCapture on
pointer-down, released implicitly by the browser on pointer-up). -/
structure HState where
  drawing : Bool
  last : Option Point
  captured : Bool
deriving DecidableEq

/-- onpointerdown (App.jsx lines 205-209): acquire pointer capture, set
drawing, record the local point. -/
def onpointerdown (_s : HState) (p : Point) : HState :=
  ⟨true, some p, true⟩

/-- onpointermove (App.jsx lines 210-215): if a stroke is active, draw a
segment from the last point to the current one using the tool state read at
this event, and advance the last point. Returns the paint ops emitted. -/
def onpointermove (dpr : ℚ) (s : HState) (p : Point) (ts : Tool) :
    HState × List PaintOp :=
  match s.drawing, s.last with
  | true, some q => (⟨true, some p, s.captured⟩, [strokeTo ts dpr q p])
  | _, _ => (s, [])

/-- onpointerup (App.jsx lines 216-217): stop the stroke; the browser
implicitly releases pointer capture on pointer-up. -/
def onpointerup (_s : HState) : HState :=
  ⟨false, none, false⟩

/-- onpointerleave (App.jsx lines 216-218): stop the stroke (capture, if any,
is unaffected). -/
def onpointerleave (s : HState) : HState :=
  ⟨false, none, s.captured⟩

/-- A physical pointer event over the overlay. down/move carry the local
point and the tool state current at that event (the refs are kept in sync
with the tool state, App.jsx lines 50-56). `leave` is the pointer physically
leaving the surface bounds. -/
inductive PEvent where
  | down (p : Point) (ts : Tool)
  | move (p : Point) (ts : Tool)
  | up
  | leave
deriving DecidableEq

/-- Modelled from the spec: browser pointer-event dispatch under pointer
capture, which the code relies on ("Pointer capture must be acquired on
pointer-down ... so a stroke can continue even if the pointer briefly leaves
the surface bounds"). While the overlay holds pointer capture, pointer events
are retargeted to it and a boundary crossing does not deliver a pointerleave;
without capture, a physical leave reaches the onpointerleave handler. -/
def dispatch (dpr : ℚ) (s : HState) (e : PEvent) : HState × List PaintOp :=
  match e with
  | .down p _ts => (onpointerdown s p, [])
  | .move p ts => onpointermove dpr s p ts
  | .up => (onpointerup s, [])
  | .leave => if s.captured then (s, []) else (onpointerleave s, [])

/-- Run a sequence of pointer events through the handlers, collecting the
paint ops written to the overlay. -/
def runEvents (dpr : ℚ) (s : HState) : List PEvent → HState × List PaintOp
  | [] => (s, [])
  | e :: es =>
    let r1 := dispatch dpr s e
    let r2 := runEvents dpr r1.1 es
    (r2.1, r1.2 ++ r2.2)

/-- Whether a physical event is a pointer move. -/
def PEvent.isMove : PEvent → Bool
  | .move _ _ => true
  | _ => false

/-- Number of move events in a list. -/
def countMoves (es : List PEvent) : Nat :=
  (es.filter PEvent.isMove).length

/-! ### Pixel compositing (preview versus export)

The preview layers the overlay canvas over the page canvas with CSS
`mix-blend-mode: multiply` (App.jsx line 130); onSave re-renders the page and
draws the overlay with `globalCompositeOperation = "multiply"`
(App.jsx lines 246-249). Neither blend formula is in the repository; both are
modelled from the web standards the code invokes, per channel over
straight-alpha pixels with channel values in [0,1]. -/

/-- A straight-alpha pixel for a single color channel: channel value and
alpha. -/
structure Pixel where
  c : ℚ
  a : ℚ
deriving DecidableEq

/-- A fully transparent pixel: the state of a freshly allocated overlay
canvas. -/
def transparentPix : Pixel := ⟨0, 0⟩

/-- Modelled from the canvas 2d spec relied on by strokeTo's default
`source-over` compositing: premultiplied co = αs·Cs + αb·Cb·(1−αs),
αo = αs + αb·(1−αs), returned as a straight-alpha pixel. -/
def sourceOverPix (dst src : Pixel) : Pixel :=
  let ao := src.a + dst.a * (1 - src.a)
  ⟨if ao = 0 then 0 else (src.a * src.c + dst.a * dst.c * (1 - src.a)) / ao, ao⟩

/-- Modelled from the CSS compositing-and-blending spec relied on by the
preview's `mix-blend-mode: multiply` (App.jsx line 130): the source color is
first mixed with the backdrop through the multiply blend function
B(Cb,Cs) = Cb·Cs, giving Cm = (1−αb)·Cs + αb·B(Cb,Cs), and the result is
then source-over composited onto the backdrop. -/
def cssMultiplyBlend (backdrop src : Pixel) : Pixel :=
  let Cm := (1 - backdrop.a) * src.c + backdrop.a * (backdrop.c * src.c)
  let ao := src.a + backdrop.a * (1 - src.a)
  ⟨if ao = 0 then 0
   else (src.a * Cm + backdrop.a * backdrop.c * (1 - src.a)) / ao, ao⟩

/-- Modelled from the canvas 2d spec for
`globalCompositeOperation = "multiply"` used by onSave (App.jsx line 247):
premultiplied
co = αs·(1−αb)·Cs + αb·(1−αs)·Cb + αs·αb·(Cs·Cb), αo = αs + αb·(1−αs). -/
def canvasMultiply (dst src : Pixel) : Pixel :=
  let ao := src.a + dst.a * (1 - src.a)
  ⟨if ao = 0 then 0
   else (src.a * (1 - dst.a) * src.c + dst.a * (1 - src.a) * dst.c
         + src.a * dst.a * (src.c * dst.c)) / ao, ao⟩

/-- The overlay pixel inside a freshly painted stroke region: the stroke
style (channel value c, alpha a) painted with source-over onto the
transparent overlay. -/
def overlayStrokePixel (c a : ℚ) : Pixel :=
  sourceOverPix transparentPix ⟨c, a⟩

/-- Modelled from the spec: "the documented multiply-blend formula applied to
(background, stroke color, opacity)" — a stroke of channel value c at opacity
a over an opaque background channel b darkens it to (1−a)·b + a·(c·b). -/
def specMultiplyFormula (b c a : ℚ) : ℚ :=
  (1 - a) * b + a * (c * b)

/-! ### Coordinate model -/

/-- Page geometry for coordinate conversion: the page's extent in device
pixels (the overlay canvas's pixel size). -/
structure Geometry where
  widthPx : ℚ
  heightPx : ℚ
deriving DecidableEq

/-- A point in normalized page coordinates (fractions of page size). -/
structure NPoint where
  x : ℚ
  y : ℚ
deriving DecidableEq

/-- A point in device pixels. -/
structure DPoint where
  x : ℚ
  y : ℚ
deriving DecidableEq

/-- Modelled from the spec: `toNormalized(devicePoint, geometry)` of the
Coordinate Model. The freehand source keeps only the scaleX/scaleY ratios
inside getLocal and never names this conversion, so it is modelled from the
spec's words: a normalized coordinate is the position as a fraction of page
width/height. -/
def toNormalized (p : DPoint) (g : Geometry) : NPoint :=
  ⟨p.x / g.widthPx, p.y / g.heightPx⟩

/-- Modelled from the spec: `toDevice(normalizedPoint, geometry)` of the
Coordinate Model, the inverse direction of toNormalized. -/
def toDevice (n : NPoint) (g : Geometry) : DPoint :=
  ⟨n.x * g.widthPx, n.y * g.heightPx⟩

/-! ### Opening a document -/

/-- An abstract parsed document handle (pdf.js PDFDocumentProxy): its page
count. -/
structure Doc where
  numPages : Nat
deriving DecidableEq

/-- The component state touched by onOpen: the pristine bytes kept for
pdf-lib export (pdfBytes), the parsed viewer document (pdfDoc), and the
overlay registry (overlaysRef, page index paired with an overlay id). -/
structure AppState where
  pdfBytes : Option (List Nat)
  pdfDoc : Option Doc
  overlays : List (Nat × Nat)
deriving DecidableEq

/-- onOpen (App.jsx lines 59-72). `parse` models the external
pdfjsLib.getDocument collaborator: none is a ParseError (the awaited promise
rejects). The pristine bytes are stored with setPdfBytes BEFORE the parse is
awaited; on a successful parse, setPdfDoc triggers renderAll, whose
synchronous prefix clears the overlay registry (App.jsx lines 75-77, 90). A
missing file is a no-op. -/
def onOpen (parse : List Nat → Option Doc) (st : AppState)
    (file : Option (List Nat)) : AppState :=
  match file with
  | none => st
  | some bytes =>
    let st1 := { st with pdfBytes := some bytes }
    match parse bytes with
    | none => st1
    | some doc => { st1 with pdfDoc := some doc, overlays := [] }

/-! ### Overlay construction in renderAll (content view) -/

/-- A canvas pixel buffer: dimensions plus rows of pixels. A pixel is an
abstract value (0 = transparent). -/
structure Canvas where
  width : Nat
  height : Nat
  content : List (List Nat)
deriving DecidableEq

/-- A freshly allocated canvas: fully transparent. -/
def blankCanvas (w h : Nat) : Canvas :=
  ⟨w, h, List.replicate h (List.replicate w 0)⟩

/-- drawImage(prev, 0, 0, prev.width, prev.height, 0, 0, w, h)
(App.jsx line 145): scale the previous canvas's full content onto a w×h
canvas. The browser's resampling filter is implementation-defined (the spec
accepts nearest/linear); nearest-neighbour is used. Drawing onto a fresh
transparent canvas makes the result exactly the resampled source. -/
def resample (prev : Canvas) (w h : Nat) : Canvas :=
  ⟨w, h, (List.range h).map (fun y => (List.range w).map (fun x =>
      (prev.content.getD (y * prev.height / h) []).getD (x * prev.width / w) 0))⟩

/-- One page's overlay construction in renderAll (App.jsx lines 121-149):
allocate a fresh overlay sized to the new viewport, and if a prior overlay
for the page exists with non-zero (JS-truthy) width and height, draw its
content scaled into the new canvas before it is registered. -/
def newOverlay (prev : Option Canvas) (w h : Nat) : Canvas :=
  match prev with
  | some p => if p.width ≠ 0 ∧ p.height ≠ 0 then resample p w h else blankCanvas w h
  | none => blankCanvas w h

/-- renderAll's page loop in its content aspect, for an uncancelled pass
(App.jsx lines 84-153): the registry of previous overlays is snapshotted,
the registry is cleared, and page i registers the overlay built by
newOverlay from its previous overlay and its new device-pixel size. -/
def renderAllContent (prevOverlays : Nat → Option Canvas)
    (sizes : List (Nat × Nat)) : List Canvas :=
  (List.range sizes.length).map (fun i =>
    newOverlay (prevOverlays i) (sizes.getD i (0, 0)).1 (sizes.getD i (0, 0)).2)

/-! ### renderAll cancellation (interleaving view)

renderAll (App.jsx lines 80-155) synchronously installs a fresh token in
renderTokenRef and clears the overlay registry, then runs an async page loop.
Each iteration tests `renderTokenRef.current !== token` at its top, awaits
doc.getPage and page.render (the suspension points across which another
renderAll invocation may run), and unconditionally registers the page's new
overlay at its end. The model below makes those atomic actions explicit and
interleaves two invocations under an arbitrary schedule. -/

namespace Render

/-- The atomic actions of a renderAll invocation at generation g: `reset` is
the synchronous prefix (token := g, registry cleared, App.jsx lines 87-90);
`check i` is the staleness test at the top of page i's loop iteration
(App.jsx line 106); `register i` is the overlay registration at its end
(App.jsx line 149). The awaits between check and register are where other
invocations interleave. -/
inductive Action where
  | reset (g : Nat)
  | check (g : Nat) (i : Nat)
  | register (g : Nat) (i : Nat)
deriving DecidableEq

/-- The shared state: the current token (generation number standing for the
random string) and the overlay registry, page index to the generation whose
overlay is registered there. -/
structure RState where
  token : Nat
  reg : List (Option Nat)
deriving DecidableEq

/-- One renderAll invocation in flight: its remaining atomic actions, and
whether it has returned at a failed check. -/
structure Proc where
  rem : List Action
  halted : Bool
deriving DecidableEq

/-- Execute one atomic action of a process on the shared state (n is the
page count). A failed check returns from the async loop (halts the process);
a register writes its generation into the registry unconditionally. -/
def step (n : Nat) (s : RState) (p : Proc) : RState × Proc :=
  if p.halted then (s, p) else
  match p.rem with
  | [] => (s, p)
  | a :: rest =>
    match a with
    | .reset g => (⟨g, List.replicate n none⟩, ⟨rest, false⟩)
    | .check g _ =>
        if s.token = g then (s, ⟨rest, false⟩) else (s, ⟨rest, true⟩)
    | .register g i => (⟨s.token, s.reg.set i (some g)⟩, ⟨rest, false⟩)

/-- The async page loop of generation g from page i to page n-1: each page
contributes a check followed by an unconditional register. -/
def pageActs (g i n : Nat) : List Action :=
  (List.range' i (n - i)).flatMap (fun j => [Action.check g j, Action.register g j])

/-- Interleave two invocations under a schedule: true steps the first
process, false the second. -/
def run (n : Nat) : RState → Proc → Proc → List Bool → RState × Proc × Proc
  | s, p1, p2, [] => (s, p1, p2)
  | s, p1, p2, true :: bs =>
      let r := step n s p1
      run n r.1 r.2 p2 bs
  | s, p1, p2, false :: bs =>
      let r := step n s p2
      run n r.1 p1 r.2 bs

/-- The scenario of issuing renderAll twice in quick succession on an n-page
document: generation 1's synchronous prefix has executed (token is 1, the
registry is freshly cleared) and its page loop is about to start; generation
2's invocation is pending in full; the schedule interleaves them. -/
def renderTwice (n : Nat) (bs : List Bool) : RState × Proc × Proc :=
  run n ⟨1, List.replicate n none⟩ ⟨pageActs 1 0 n, false⟩
    ⟨Action.reset 2 :: pageActs 2 0 n, false⟩ bs

/-- Number of registry entries still holding a generation-1 overlay. -/
def count1 : List (Option Nat) → Nat
  | [] => 0
  | x :: tl => (if x = some 1 then 1 else 0) + count1 tl

/-- Whether a pending action list is about to perform a generation-1
registration. -/
def isReg1Head : List Action → Bool
  | Action.register g _ :: _ => g = 1
  | _ => false

/-- How many further generation-1 registrations the superseded invocation can
still perform: one if a register is pending before its next check, zero
otherwise. -/
def pending1 (p : Proc) : Nat :=
  if p.halted then 0 else if isReg1Head p.rem then 1 else 0

/-- The reachable shapes of generation 1's process: at the top of page i's
iteration, or between page i's check and its registration. -/
def P1shape (n : Nat) (p : Proc) : Prop :=
  ∃ i, p.rem = pageActs 1 i n ∨ p.rem = Action.register 1 i :: pageActs 1 (i+1) n

/-- Interleaving invariant for renderTwice: the registry always has one slot
per page; generation 1 is in a reachable shape; and either generation 2 has
not started (token still 1), or generation 2 owns the token, is never
cancelled, at most one stale generation-1 registration exists or is pending,
and every page below generation 2's loop counter is registered to generation
2 unless generation 1's single stale registration overwrote it. -/
def Inv (n : Nat) (s : RState) (p1 p2 : Proc) : Prop :=
  s.reg.length = n ∧ P1shape n p1 ∧
  ((p2.rem = Action.reset 2 :: pageActs 2 0 n ∧ p2.halted = false ∧ s.token = 1) ∨
   (s.token = 2 ∧ p2.halted = false ∧ count1 s.reg + pending1 p1 ≤ 1 ∧
    ∃ j, (p2.rem = pageActs 2 j n ∨ p2.rem = Action.register 2 j :: pageActs 2 (j+1) n) ∧
      ∀ i, i < j → i < n →
        (s.reg.getD i none = some 2 ∨ s.reg.getD i none = some 1)))

end Render

/-! ## Theorems -/

/-- C4: for every stroke segment drawn in non-eraser mode, whatever opacity
the tool state holds (including values above the cap, or none at all), the
alpha applied to the overlay's stroke style is clamped to at most 0.25, so
underlying text stays legible for all user inputs. -/
theorem stroke_alpha_le_quarter (ts : Tool) (dpr : ℚ) (q p : Point)
    (h : ts.eraser = false) :
    (strokeTo ts dpr q p).strokeStyle.a ≤ 1/4 := by
  simp only [strokeTo, h, Bool.false_eq_true, if_false, rgbaCss]
  exact le_trans (min_le_right _ _) (by norm_num)

/-- Witness for C4 at a concrete over-cap opacity of 0.9. -/
theorem stroke_alpha_le_quarter_witness :
    (⟨⟨255, 0, 0⟩, some (9/10), 18, false⟩ : Tool).eraser = false ∧
    (strokeTo ⟨⟨255, 0, 0⟩, some (9/10), 18, false⟩ 1 ⟨0, 0, 1⟩ ⟨1, 1, 1⟩).strokeStyle.a ≤ 1/4 :=
  ⟨rfl, stroke_alpha_le_quarter ⟨⟨255, 0, 0⟩, some (9/10), 18, false⟩ 1 ⟨0, 0, 1⟩ ⟨1, 1, 1⟩ rfl⟩

/-- C7: during an active stroke, each pointer-move segment is computed from
the tool state current at that event — the tool state at stroke start (ts0)
does not appear in the emitted paint ops, and a tool change between the two
moves takes effect on the very next segment. -/
theorem tool_state_fresh_per_segment (dpr : ℚ) (s : HState) (p0 p1 p2 : Point)
    (ts0 ts1 ts2 : Tool) :
    (runEvents dpr s [.down p0 ts0, .move p1 ts1, .move p2 ts2]).2
      = [strokeTo ts1 dpr p0 p1, strokeTo ts2 dpr p1 p2] := rfl

/-- C8: for a point produced by getLocal on a canvas whose pixel width is the
CSS width scaled by the device-pixel ratio (how renderAll sizes overlays,
App.jsx lines 124-129), the painted line width is the configured thickness
rescaled by that device-pixel ratio, subject to the minimum of 2. -/
theorem lineWidth_rescaled_by_dpr (ts : Tool) (dpr cx cy : ℚ)
    (canvas : CanvasDim) (r : Rect) (q : Point)
    (hw : r.width ≠ 0) (hc : canvas.width = r.width * dpr) (hd : dpr ≠ 0) :
    (strokeTo ts dpr q (getLocal canvas r cx cy)).lineWidth
      = max 2 (ts.thickness * dpr) := by
  have hs : (getLocal canvas r cx cy).scaleX = dpr := by
    simp only [getLocal, hc]
    rw [mul_comm, mul_div_assoc, div_self hw, mul_one]
  simp [strokeTo, hs, hd]

/-- Witness for C8: a 100 CSS-px-wide canvas at device-pixel ratio 2. -/
theorem lineWidth_rescaled_by_dpr_witness :
    (100 : ℚ) ≠ 0 ∧ (200 : ℚ) = 100 * 2 ∧ (2 : ℚ) ≠ 0 ∧
    (strokeTo ⟨⟨255, 0, 0⟩, some (1/5), 18, false⟩ 2 ⟨0, 0, 2⟩
        (getLocal ⟨200, 100⟩ ⟨0, 0, 100, 50⟩ 30 20)).lineWidth
      = max 2 ((⟨⟨255, 0, 0⟩, some (1/5), 18, false⟩ : Tool).thickness * 2) :=
  ⟨by norm_num, by norm_num, by norm_num,
   lineWidth_rescaled_by_dpr ⟨⟨255, 0, 0⟩, some (1/5), 18, false⟩ 2 30 20
     ⟨200, 100⟩ ⟨0, 0, 100, 50⟩ ⟨0, 0, 2⟩ (by norm_num) (by norm_num) (by norm_num)⟩

/-- C10: with the eraser flag active, the overlay write of a stroke segment
is independent of the selected color and opacity: two tool states agreeing
on the eraser flag and thickness but differing arbitrarily in color and
opacity produce the identical paint op (destination-out compositing with the
fixed fully opaque style), hence identical overlay contents over any
overlay. -/
theorem eraser_independent_of_color_opacity (ts1 ts2 : Tool) (dpr : ℚ)
    (q p : Point) (h1 : ts1.eraser = true) (h2 : ts2.eraser = true)
    (ht : ts1.thickness = ts2.thickness) :
    strokeTo ts1 dpr q p = strokeTo ts2 dpr q p := by
  simp [strokeTo, h1, h2, ht]

/-- Witness for C10: erasing with red at opacity 0.9 equals erasing with
blue at opacity 0.1. -/
theorem eraser_independent_of_color_opacity_witness :
    (⟨⟨255, 0, 0⟩, some (9/10), 18, true⟩ : Tool).eraser = true ∧
    (⟨⟨0, 0, 255⟩, some (1/10), 18, true⟩ : Tool).eraser = true ∧
    (⟨⟨255, 0, 0⟩, some (9/10), 18, true⟩ : Tool).thickness
      = (⟨⟨0, 0, 255⟩, some (1/10), 18, true⟩ : Tool).thickness ∧
    strokeTo ⟨⟨255, 0, 0⟩, some (9/10), 18, true⟩ 1 ⟨0, 0, 1⟩ ⟨1, 1, 1⟩
      = strokeTo ⟨⟨0, 0, 255⟩, some (1/10), 18, true⟩ 1 ⟨0, 0, 1⟩ ⟨1, 1, 1⟩ :=
  ⟨rfl, rfl, rfl,
   eraser_independent_of_color_opacity ⟨⟨255, 0, 0⟩, some (9/10), 18, true⟩
     ⟨⟨0, 0, 255⟩, some (1/10), 18, true⟩ 1 ⟨0, 0, 1⟩ ⟨1, 1, 1⟩ rfl rfl rfl⟩

/-- C5: for every device point and page geometry with non-degenerate
dimensions, toDevice inverts toNormalized exactly (rational arithmetic has no
floating rounding), so the round-trip error is 0 and in particular at most 1
device pixel in each coordinate. -/
theorem toDevice_toNormalized_roundtrip (p : DPoint) (g : Geometry)
    (hx : g.widthPx ≠ 0) (hy : g.heightPx ≠ 0) :
    toDevice (toNormalized p g) g = p ∧
    |(toDevice (toNormalized p g) g).x - p.x| ≤ 1 ∧
    |(toDevice (toNormalized p g) g).y - p.y| ≤ 1 := by
  have h : toDevice (toNormalized p g) g = p := by
    obtain ⟨px, py⟩ := p
    simp only [toDevice, toNormalized, DPoint.mk.injEq]
    exact ⟨div_mul_cancel₀ px hx, div_mul_cancel₀ py hy⟩
  refine ⟨h, ?_, ?_⟩ <;> rw [h] <;> simp

/-- Witness for C5 on a 100×200 device-pixel page at point (37, 53). -/
theorem toDevice_toNormalized_roundtrip_witness :
    (⟨100, 200⟩ : Geometry).widthPx ≠ 0 ∧
    (⟨100, 200⟩ : Geometry).heightPx ≠ 0 ∧
    (toDevice (toNormalized ⟨37, 53⟩ ⟨100, 200⟩) ⟨100, 200⟩ = ⟨37, 53⟩ ∧
     |(toDevice (toNormalized ⟨37, 53⟩ ⟨100, 200⟩) ⟨100, 200⟩).x - (37 : ℚ)| ≤ 1 ∧
     |(toDevice (toNormalized ⟨37, 53⟩ ⟨100, 200⟩) ⟨100, 200⟩).y - (53 : ℚ)| ≤ 1) :=
  ⟨by norm_num, by norm_num,
   toDevice_toNormalized_roundtrip ⟨37, 53⟩ ⟨100, 200⟩ (by norm_num) (by norm_num)⟩

/-- C6 counterexample: open a PDF while another one (bytes [1]) is loaded,
and let the new bytes [2, 2] fail to parse. The open operation fails, but the
stored pristine bytes used for export have already been replaced — the
previous document's state is NOT left untouched, refuting the claim as
stated. -/
theorem onOpen_clobbers_bytes_cex :
    (onOpen (fun _ => none) ⟨some [1], some ⟨3⟩, [(0, 7)]⟩ (some [2, 2])).pdfBytes
      ≠ (⟨some [1], some ⟨3⟩, [(0, 7)]⟩ : AppState).pdfBytes := by
  decide

/-- C6 amended: if opening fails with ParseError, the previously parsed
document handle and the overlay registry are left untouched, but the stored
pristine bytes have already been replaced with the new file's bytes (they are
stored before the parse is awaited); on a successful parse the new document
is installed and the annotation state is reset. -/
theorem onOpen_parse_error_behavior (parse : List Nat → Option Doc)
    (st : AppState) (bytes : List Nat) :
    (parse bytes = none →
      (onOpen parse st (some bytes)).pdfDoc = st.pdfDoc ∧
      (onOpen parse st (some bytes)).overlays = st.overlays ∧
      (onOpen parse st (some bytes)).pdfBytes = some bytes) ∧
    (∀ d, parse bytes = some d →
      (onOpen parse st (some bytes)).pdfDoc = some d ∧
      (onOpen parse st (some bytes)).overlays = [] ∧
      (onOpen parse st (some bytes)).pdfBytes = some bytes) := by
  constructor
  · intro h
    simp [onOpen, h]
  · intro d h
    simp [onOpen, h]

/-- Witness for C6 (amended), failure branch at a concrete state: the old
document handle and overlays survive, the pristine bytes do not. -/
theorem onOpen_parse_error_behavior_witness :
    (onOpen (fun _ => none) ⟨some [1], some ⟨3⟩, [(0, 7)]⟩ (some [2, 2])).pdfDoc
      = (⟨some [1], some ⟨3⟩, [(0, 7)]⟩ : AppState).pdfDoc ∧
    (onOpen (fun _ => none) ⟨some [1], some ⟨3⟩, [(0, 7)]⟩ (some [2, 2])).overlays
      = (⟨some [1], some ⟨3⟩, [(0, 7)]⟩ : AppState).overlays ∧
    (onOpen (fun _ => none) ⟨some [1], some ⟨3⟩, [(0, 7)]⟩ (some [2, 2])).pdfBytes
      = some [2, 2] :=
  (onOpen_parse_error_behavior (fun _ => none) ⟨some [1], some ⟨3⟩, [(0, 7)]⟩ [2, 2]).1 rfl

/-- C1: over an opaque re-rendered page pixel of channel value b, compositing
a stroke-region overlay pixel (stroke channel c painted at clamped opacity a)
with onSave's canvas "multiply" operation gives exactly the same pixel as the
preview's CSS mix-blend-mode multiply, and that pixel's channel value is the
documented multiply-blend formula applied to (background, stroke color,
opacity); in particular over a white background it is (1−a)·1 + a·(c·1). With
matching resolutions the model is exact, so the export matches the preview to
within resampling error. -/
theorem export_matches_preview (b c a : ℚ) (ha : a ≠ 0) :
    canvasMultiply ⟨b, 1⟩ (overlayStrokePixel c a)
        = cssMultiplyBlend ⟨b, 1⟩ (overlayStrokePixel c a) ∧
    (canvasMultiply ⟨b, 1⟩ (overlayStrokePixel c a)).c = specMultiplyFormula b c a ∧
    (canvasMultiply ⟨1, 1⟩ (overlayStrokePixel c a)).c = specMultiplyFormula 1 c a := by
  have hol : overlayStrokePixel c a = ⟨c, a⟩ := by
    simp only [overlayStrokePixel, sourceOverPix, transparentPix, zero_mul,
      add_zero, mul_zero, Pixel.mk.injEq]
    rw [if_neg ha]
    exact ⟨mul_div_cancel_left₀ c ha, trivial⟩
  have hcm : ∀ b' : ℚ,
      canvasMultiply ⟨b', 1⟩ ⟨c, a⟩ = ⟨(1 - a) * b' + a * (c * b'), 1⟩ := by
    intro b'
    simp only [canvasMultiply]
    rw [show a + 1 * (1 - a) = 1 by ring]
    rw [if_neg (one_ne_zero : (1 : ℚ) ≠ 0)]
    simp only [Pixel.mk.injEq, div_one]
    exact ⟨by ring, trivial⟩
  have hcs : cssMultiplyBlend ⟨b, 1⟩ ⟨c, a⟩ = ⟨(1 - a) * b + a * (c * b), 1⟩ := by
    simp only [cssMultiplyBlend]
    rw [show a + 1 * (1 - a) = 1 by ring]
    rw [if_neg (one_ne_zero : (1 : ℚ) ≠ 0)]
    simp only [Pixel.mk.injEq, div_one]
    exact ⟨by ring, trivial⟩
  rw [hol, hcm b, hcs, hcm 1]
  exact ⟨rfl, rfl, rfl⟩

/-- Witness for C1: a half-gray background, stroke channel 1, opacity 1/5. -/
theorem export_matches_preview_witness :
    canvasMultiply ⟨1/2, 1⟩ (overlayStrokePixel 1 (1/5))
        = cssMultiplyBlend ⟨1/2, 1⟩ (overlayStrokePixel 1 (1/5)) ∧
    (canvasMultiply ⟨1/2, 1⟩ (overlayStrokePixel 1 (1/5))).c
        = specMultiplyFormula (1/2) 1 (1/5) ∧
    (canvasMultiply ⟨1, 1⟩ (overlayStrokePixel 1 (1/5))).c
        = specMultiplyFormula 1 1 (1/5) :=
  export_matches_preview (1/2) 1 (1/5) (by norm_num)

/-- C3: in a re-render pass, every page whose prior overlay has non-zero
dimensions gets a new overlay whose registered content is the prior overlay's
pixel content resampled to the new size — annotations drawn before a
zoom/DPI change are carried into the replacing surface. -/
theorem overlay_resampled_on_rerender (prevs : Nat → Option Canvas)
    (sizes : List (Nat × Nat)) (i : Nat) (p : Canvas)
    (hi : i < sizes.length) (hp : prevs i = some p)
    (hw : p.width ≠ 0) (hh : p.height ≠ 0) :
    (renderAllContent prevs sizes).getD i (blankCanvas 0 0)
      = resample p (sizes.getD i (0, 0)).1 (sizes.getD i (0, 0)).2 := by
  unfold renderAllContent
  rw [List.getD_eq_getElem?_getD, List.getElem?_map, List.getElem?_range hi]
  simp [newOverlay, hp, hw, hh]

/-- Witness for C3: one page, a 1×1 prior overlay holding pixel 5, re-rendered
at 2×2. -/
theorem overlay_resampled_on_rerender_witness :
    (renderAllContent (fun _ => some ⟨1, 1, [[5]]⟩) [(2, 2)]).getD 0 (blankCanvas 0 0)
      = resample ⟨1, 1, [[5]]⟩ 2 2 :=
  overlay_resampled_on_rerender (fun _ => some ⟨1, 1, [[5]]⟩) [(2, 2)] 0 ⟨1, 1, [[5]]⟩
    (by decide) rfl (by decide) (by decide)

/-- Unfolding lemma for runEvents on a cons. -/
theorem runEvents_cons (dpr : ℚ) (s : HState) (e : PEvent) (es : List PEvent) :
    runEvents dpr s (e :: es)
      = ((runEvents dpr (dispatch dpr s e).1 es).1,
         (dispatch dpr s e).2 ++ (runEvents dpr (dispatch dpr s e).1 es).2) := rfl

/-- The final handler state of an event sequence is reached by running its
pieces in order. -/
theorem runEvents_append (dpr : ℚ) (s : HState) (l1 l2 : List PEvent) :
    (runEvents dpr s (l1 ++ l2)).1 = (runEvents dpr (runEvents dpr s l1).1 l2).1 := by
  induction l1 generalizing s with
  | nil => rfl
  | cons e es ih => rw [List.cons_append, runEvents_cons, runEvents_cons]; exact ih _

/-- While a stroke is active and the overlay holds pointer capture, a
sequence of physical moves and boundary leaves keeps the stroke active and
captured, and every move (and only the moves) extends the stroke by one
segment. -/
theorem stroke_active_invariant (dpr : ℚ) :
    ∀ evs : List PEvent, (∀ e ∈ evs, e.isMove = true ∨ e = PEvent.leave) →
    ∀ s : HState, s.drawing = true → s.captured = true → s.last.isSome = true →
      (runEvents dpr s evs).1.drawing = true ∧
      (runEvents dpr s evs).1.captured = true ∧
      (runEvents dpr s evs).1.last.isSome = true ∧
      (runEvents dpr s evs).2.length = countMoves evs := by
  intro evs
  induction evs with
  | nil =>
    intro _ s h1 h2 h3
    exact ⟨h1, h2, h3, rfl⟩
  | cons e es ih =>
    intro h s h1 h2 h3
    have hes : ∀ x ∈ es, x.isMove = true ∨ x = PEvent.leave :=
      fun x hx => h x (List.mem_cons_of_mem e hx)
    rcases h e (List.mem_cons_self e es) with hm | hl
    · cases e with
      | down p ts => simp [PEvent.isMove] at hm
      | up => simp [PEvent.isMove] at hm
      | leave => simp [PEvent.isMove] at hm
      | move p ts =>
        obtain ⟨q, hq⟩ := Option.isSome_iff_exists.mp h3
        have hstep : dispatch dpr s (PEvent.move p ts)
            = (⟨true, some p, s.captured⟩, [strokeTo ts dpr q p]) := by
          simp [dispatch, onpointermove, h1, hq]
        obtain ⟨d1, d2, d3, d4⟩ := ih hes ⟨true, some p, s.captured⟩ rfl (by simpa using h2) rfl
        rw [runEvents_cons, hstep]
        refine ⟨d1, d2, d3, ?_⟩
        simp only [List.length_append, List.length_cons, List.length_nil, d4]
        simp [countMoves, PEvent.isMove]
        omega
    · subst hl
      have hstep : dispatch dpr s PEvent.leave = (s, []) := by
        simp [dispatch, h2]
      obtain ⟨d1, d2, d3, d4⟩ := ih hes s h1 h2 h3
      rw [runEvents_cons, hstep]
      refine ⟨d1, d2, d3, ?_⟩
      simp only [List.nil_append, d4]
      simp [countMoves, PEvent.isMove]

/-- C9: a pointer-down acquires pointer capture, and while the stroke is
active and captured it survives the pointer leaving the surface bounds: any
following sequence of physical moves and boundary leaves keeps drawing
active, each move extends the stroke by one segment (leaves extend nothing),
and the stroke ends on the pointer-up. -/
theorem pointer_capture_stroke_persists (dpr : ℚ) (s : HState) (p0 : Point)
    (ts0 : Tool) (evs : List PEvent)
    (h : ∀ e ∈ evs, e.isMove = true ∨ e = PEvent.leave) :
    (dispatch dpr s (.down p0 ts0)).1.captured = true ∧
    (runEvents dpr (dispatch dpr s (.down p0 ts0)).1 evs).1.drawing = true ∧
    (runEvents dpr (dispatch dpr s (.down p0 ts0)).1 evs).2.length = countMoves evs ∧
    (runEvents dpr (dispatch dpr s (.down p0 ts0)).1 (evs ++ [.up])).1.drawing = false := by
  obtain ⟨d1, _, _, d4⟩ :=
    stroke_active_invariant dpr evs h ⟨true, some p0, true⟩ rfl rfl rfl
  refine ⟨rfl, d1, d4, ?_⟩
  rw [runEvents_append]
  rfl

/-- Witness for C9: a down, a move, a boundary leave, then another move; the
stroke yields two segments and ends only at the up. -/
theorem pointer_capture_stroke_persists_witness :
    (∀ e ∈ [PEvent.move ⟨1, 1, 1⟩ ⟨⟨255, 0, 0⟩, some (1/5), 18, false⟩, PEvent.leave,
            PEvent.move ⟨2, 2, 1⟩ ⟨⟨255, 0, 0⟩, some (1/5), 18, false⟩],
        e.isMove = true ∨ e = PEvent.leave) ∧
    ((dispatch 1 ⟨false, none, false⟩
        (.down ⟨0, 0, 1⟩ ⟨⟨255, 0, 0⟩, some (1/5), 18, false⟩)).1.captured = true ∧
     (runEvents 1 (dispatch 1 ⟨false, none, false⟩
        (.down ⟨0, 0, 1⟩ ⟨⟨255, 0, 0⟩, some (1/5), 18, false⟩)).1
        [PEvent.move ⟨1, 1, 1⟩ ⟨⟨255, 0, 0⟩, some (1/5), 18, false⟩, PEvent.leave,
         PEvent.move ⟨2, 2, 1⟩ ⟨⟨255, 0, 0⟩, some (1/5), 18, false⟩]).1.drawing = true ∧
     (runEvents 1 (dispatch 1 ⟨false, none, false⟩
        (.down ⟨0, 0, 1⟩ ⟨⟨255, 0, 0⟩, some (1/5), 18, false⟩)).1
        [PEvent.move ⟨1, 1, 1⟩ ⟨⟨255, 0, 0⟩, some (1/5), 18, false⟩, PEvent.leave,
         PEvent.move ⟨2, 2, 1⟩ ⟨⟨255, 0, 0⟩, some (1/5), 18, false⟩]).2.length
       = countMoves
         [PEvent.move ⟨1, 1, 1⟩ ⟨⟨255, 0, 0⟩, some (1/5), 18, false⟩, PEvent.leave,
          PEvent.move ⟨2, 2, 1⟩ ⟨⟨255, 0, 0⟩, some (1/5), 18, false⟩] ∧
     (runEvents 1 (dispatch 1 ⟨false, none, false⟩
        (.down ⟨0, 0, 1⟩ ⟨⟨255, 0, 0⟩, some (1/5), 18, false⟩)).1
        ([PEvent.move ⟨1, 1, 1⟩ ⟨⟨255, 0, 0⟩, some (1/5), 18, false⟩, PEvent.leave,
          PEvent.move ⟨2, 2, 1⟩ ⟨⟨255, 0, 0⟩, some (1/5), 18, false⟩]
         ++ [PEvent.up])).1.drawing = false) :=
  ⟨by decide,
   pointer_capture_stroke_persists 1 ⟨false, none, false⟩ ⟨0, 0, 1⟩
     ⟨⟨255, 0, 0⟩, some (1/5), 18, false⟩
     [PEvent.move ⟨1, 1, 1⟩ ⟨⟨255, 0, 0⟩, some (1/5), 18, false⟩, PEvent.leave,
      PEvent.move ⟨2, 2, 1⟩ ⟨⟨255, 0, 0⟩, some (1/5), 18, false⟩] (by decide)⟩

namespace Render

/-- C2 counterexample: one page, renderAll issued twice. The first
generation passes its (only) staleness check, suspends in the page's
asynchronous render, the second generation then resets and completes the
page, and finally the first generation resumes and — with no token check
after the awaited render step — registers its stale overlay. Both
invocations have run to completion, yet the page holds the FIRST
generation's surface, refuting the claim that the token is re-checked after
each page's asynchronous step and that no page ends up holding a
first-generation surface. -/
theorem renderAll_stale_overlay_cex :
    (renderTwice 1 [true, false, false, false, true]).2.1.rem = [] ∧
    (renderTwice 1 [true, false, false, false, true]).2.2.rem = [] ∧
    (renderTwice 1 [true, false, false, false, true]).1.reg = [some 1] := by
  decide

/-- pageActs is empty once the loop counter reaches the page count. -/
theorem pageActs_nil (g i n : Nat) (h : n ≤ i) : pageActs g i n = [] := by
  unfold pageActs
  rw [Nat.sub_eq_zero_of_le h]
  rfl

/-- pageActs unfolds to a check and a register ahead of the rest. -/
theorem pageActs_cons (g i n : Nat) (h : i < n) :
    pageActs g i n = Action.check g i :: Action.register g i :: pageActs g (i+1) n := by
  unfold pageActs
  rw [show n - i = (n - (i+1)) + 1 by omega, List.range'_succ]
  rfl

/-- At most one stale generation-1 registration is ever pending. -/
theorem pending1_le_one (p : Proc) : pending1 p ≤ 1 := by
  unfold pending1
  split
  · omega
  · split <;> omega

/-- The action list of generation 1 at the top of a loop iteration does not
begin with a registration. -/
theorem isReg1Head_pageActs (g j n : Nat) : isReg1Head (pageActs g j n) = false := by
  rcases Nat.lt_or_ge j n with h | h
  · rw [pageActs_cons g j n h]; rfl
  · rw [pageActs_nil g j n h]; rfl

/-- Setting a slot adds at most one generation-1 entry. -/
theorem count1_set_le (l : List (Option Nat)) (i : Nat) (b : Option Nat) :
    count1 (l.set i b) ≤ count1 l + 1 := by
  induction l generalizing i with
  | nil => simp [count1]
  | cons hd tl ih =>
    cases i with
    | zero =>
      simp only [List.set, count1]
      have := ih 0
      split <;> split <;> omega
    | succ j =>
      simp only [List.set, count1]
      have := ih j
      omega

/-- Setting a slot to anything but a generation-1 entry does not increase the
generation-1 count. -/
theorem count1_set_ne (l : List (Option Nat)) (i : Nat) (b : Option Nat)
    (hb : b ≠ some 1) : count1 (l.set i b) ≤ count1 l := by
  induction l generalizing i with
  | nil => simp [count1]
  | cons hd tl ih =>
    cases i with
    | zero =>
      simp only [List.set, count1]
      rw [if_neg hb]
      omega
    | succ j =>
      simp only [List.set, count1]
      have := ih j
      omega

/-- A freshly cleared registry holds no generation-1 entry. -/
theorem count1_replicate_none (n : Nat) : count1 (List.replicate n none) = 0 := by
  induction n with
  | zero => rfl
  | succ m ih => simp [List.replicate, count1, ih]

/-- Reading the slot just written. -/
theorem getD_set_self (l : List (Option Nat)) (i : Nat) (b : Option Nat)
    (h : i < l.length) : (l.set i b).getD i none = b := by
  induction l generalizing i with
  | nil => simp at h
  | cons hd tl ih =>
    cases i with
    | zero => rfl
    | succ j =>
      simp only [List.set, List.getD_cons_succ]
      exact ih j (by simpa using h)

/-- Reading a slot other than the one written. -/
theorem getD_set_ne (l : List (Option Nat)) (i j : Nat) (b : Option Nat)
    (h : i ≠ j) : (l.set i b).getD j none = l.getD j none := by
  induction l generalizing i j with
  | nil => simp [List.set]
  | cons hd tl ih =>
    cases i with
    | zero =>
      cases j with
      | zero => exact absurd rfl h
      | succ j' => rfl
    | succ i' =>
      cases j with
      | zero => rfl
      | succ j' =>
        simp only [List.set, List.getD_cons_succ]
        exact ih i' j' (by omega)

/-- A halted process takes no step. -/
theorem step_halted (n : Nat) (s : RState) (rem : List Action) :
    step n s ⟨rem, true⟩ = (s, ⟨rem, true⟩) := rfl

/-- A finished process takes no step. -/
theorem step_nil (n : Nat) (s : RState) :
    step n s ⟨[], false⟩ = (s, ⟨[], false⟩) := rfl

/-- The synchronous prefix: install the new token and clear the registry. -/
theorem step_reset (n : Nat) (s : RState) (g : Nat) (rest : List Action) :
    step n s ⟨Action.reset g :: rest, false⟩
      = (⟨g, List.replicate n none⟩, ⟨rest, false⟩) := rfl

/-- A check that observes its own token proceeds. -/
theorem step_check_ok (n : Nat) (s : RState) (g i : Nat) (rest : List Action)
    (h : s.token = g) :
    step n s ⟨Action.check g i :: rest, false⟩ = (s, ⟨rest, false⟩) := by
  simp [step, h]

/-- A check that observes a stale token returns from the loop. -/
theorem step_check_stale (n : Nat) (s : RState) (g i : Nat) (rest : List Action)
    (h : s.token ≠ g) :
    step n s ⟨Action.check g i :: rest, false⟩ = (s, ⟨rest, true⟩) := by
  simp [step, h]

/-- A registration writes its generation into the page's slot,
unconditionally. -/
theorem step_register (n : Nat) (s : RState) (g i : Nat) (rest : List Action) :
    step n s ⟨Action.register g i :: rest, false⟩
      = (⟨s.token, s.reg.set i (some g)⟩, ⟨rest, false⟩) := rfl

/-- Stepping generation 1's process preserves the interleaving invariant. -/
theorem inv_step1 (n : Nat) (s : RState) (p1 p2 : Proc) (h : Inv n s p1 p2) :
    Inv n (step n s p1).1 (step n s p1).2 p2 := by
  obtain ⟨hlen, ⟨i, hp1⟩, hphase⟩ := h
  obtain ⟨rem1, halted1⟩ := p1
  simp only at hp1
  cases halted1 with
  | true =>
    rw [step_halted]
    exact ⟨hlen, ⟨i, hp1⟩, hphase⟩
  | false =>
    rcases hp1 with hp | hp
    · rcases Nat.lt_or_ge i n with hin | hin
      · rw [pageActs_cons 1 i n hin] at hp
        subst hp
        by_cases ht : s.token = 1
        · rw [step_check_ok n s 1 i _ ht]
          refine ⟨hlen, ⟨i, Or.inr rfl⟩, ?_⟩
          rcases hphase with hA | hB
          · exact Or.inl hA
          · exact absurd (ht.symm.trans hB.1) (by omega)
        · rw [step_check_stale n s 1 i _ ht]
          dsimp only
          refine ⟨hlen, ⟨i, Or.inr rfl⟩, ?_⟩
          rcases hphase with ⟨hA1, hA2, hA3⟩ | ⟨hB1, hB2, hB3, j, hBs, hBall⟩
          · exact absurd hA3 ht
          · refine Or.inr ⟨hB1, hB2, ?_, j, hBs, hBall⟩
            have h0 : pending1 (⟨Action.register 1 i :: pageActs 1 (i+1) n, true⟩ : Proc)
                = 0 := rfl
            have h0' : pending1
                (⟨Action.check 1 i :: Action.register 1 i :: pageActs 1 (i+1) n,
                  false⟩ : Proc) = 0 := rfl
            rw [h0]
            rw [h0'] at hB3
            omega
      · rw [pageActs_nil 1 i n hin] at hp
        subst hp
        rw [step_nil]
        exact ⟨hlen, ⟨i, Or.inl (pageActs_nil 1 i n hin).symm⟩, hphase⟩
    · subst hp
      rw [step_register]
      dsimp only
      refine ⟨by simpa using hlen, ⟨i + 1, Or.inl rfl⟩, ?_⟩
      rcases hphase with ⟨hA1, hA2, hA3⟩ | ⟨hB1, hB2, hB3, j, hBs, hBall⟩
      · exact Or.inl ⟨hA1, hA2, hA3⟩
      · refine Or.inr ⟨hB1, hB2, ?_, j, hBs, ?_⟩
        · have hpend : pending1
              (⟨Action.register 1 i :: pageActs 1 (i+1) n, false⟩ : Proc) = 1 := rfl
          have hnew : pending1 (⟨pageActs 1 (i+1) n, false⟩ : Proc) = 0 := by
            unfold pending1
            simp [isReg1Head_pageActs]
          have hset := count1_set_le s.reg i (some 1)
          rw [hpend] at hB3
          show count1 (s.reg.set i (some 1))
              + pending1 (⟨pageActs 1 (i+1) n, false⟩ : Proc) ≤ 1
          rw [hnew]
          omega
        · intro i' hij hin'
          by_cases hii : i' = i
          · subst hii
            rw [getD_set_self s.reg i' (some 1) (by omega)]
            exact Or.inr rfl
          · rw [getD_set_ne s.reg i i' (some 1) (fun he => hii he.symm)]
            exact hBall i' hij hin'

/-- Stepping generation 2's process preserves the interleaving invariant. -/
theorem inv_step2 (n : Nat) (s : RState) (p1 p2 : Proc) (h : Inv n s p1 p2) :
    Inv n (step n s p2).1 p1 (step n s p2).2 := by
  obtain ⟨hlen, hP1, hphase⟩ := h
  obtain ⟨rem2, halted2⟩ := p2
  rcases hphase with ⟨hA1, hA2, hA3⟩ | ⟨hB1, hB2, hB3, j, hBs, hBall⟩
  · simp only at hA1 hA2
    subst hA1
    subst hA2
    rw [step_reset]
    dsimp only
    refine ⟨by simp, hP1, Or.inr ⟨rfl, rfl, ?_, 0, Or.inl rfl, ?_⟩⟩
    · show count1 (List.replicate n none) + pending1 p1 ≤ 1
      rw [count1_replicate_none]
      have := pending1_le_one p1
      omega
    · intro i hi _
      exact absurd hi (by omega)
  · simp only at hB2 hBs
    subst hB2
    rcases hBs with hs | hs
    · rcases Nat.lt_or_ge j n with hjn | hjn
      · rw [pageActs_cons 2 j n hjn] at hs
        subst hs
        rw [step_check_ok n s 2 j _ hB1]
        dsimp only
        exact ⟨hlen, hP1, Or.inr ⟨hB1, rfl, hB3, j, Or.inr rfl, hBall⟩⟩
      · rw [pageActs_nil 2 j n hjn] at hs
        subst hs
        rw [step_nil]
        dsimp only
        exact ⟨hlen, hP1,
          Or.inr ⟨hB1, rfl, hB3, j, Or.inl (pageActs_nil 2 j n hjn).symm, hBall⟩⟩
    · subst hs
      rw [step_register]
      dsimp only
      refine ⟨by simpa using hlen, hP1,
        Or.inr ⟨hB1, rfl, ?_, j + 1, Or.inl rfl, ?_⟩⟩
      · have hdec := count1_set_ne s.reg j (some 2) (by simp)
        show count1 (s.reg.set j (some 2)) + pending1 p1 ≤ 1
        omega
      · intro i hij hin
        by_cases hii : i = j
        · subst hii
          rw [getD_set_self s.reg i (some 2) (by omega)]
          exact Or.inl rfl
        · rw [getD_set_ne s.reg j i (some 2) (fun he => hii he.symm)]
          exact hBall i (by omega) hin

/-- The interleaving invariant holds after any schedule. -/
theorem run_inv (n : Nat) (bs : List Bool) :
    ∀ s p1 p2, Inv n s p1 p2 →
      Inv n (run n s p1 p2 bs).1 (run n s p1 p2 bs).2.1 (run n s p1 p2 bs).2.2 := by
  induction bs with
  | nil => intro s p1 p2 h; exact h
  | cons b bs ih =>
    intro s p1 p2 h
    cases b
    · exact ih (step n s p2).1 p1 (step n s p2).2 (inv_step2 n s p1 p2 h)
    · exact ih (step n s p1).1 (step n s p1).2 p2 (inv_step1 n s p1 p2 h)

/-- The invariant holds at the start of the renderTwice scenario. -/
theorem inv_init (n : Nat) :
    Inv n ⟨1, List.replicate n none⟩ ⟨pageActs 1 0 n, false⟩
      ⟨Action.reset 2 :: pageActs 2 0 n, false⟩ :=
  ⟨by simp, ⟨0, Or.inl rfl⟩, Or.inl ⟨rfl, rfl, rfl⟩⟩

/-- C2 amended: renderAll checks the token before each page's asynchronous
render step but not after it, so when renderAll is issued twice in quick
succession the superseded first generation may register the single overlay
whose render was in flight when it was superseded — but no more than that
one. Once the second invocation's page loop has completed, under every
interleaving at most one page holds a first-generation surface and every
page holds the second generation's overlay except possibly that one. -/
theorem renderAll_second_generation_wins (n : Nat) (bs : List Bool)
    (h : (renderTwice n bs).2.2.rem = []) :
    count1 (renderTwice n bs).1.reg ≤ 1 ∧
    ∀ i, i < n →
      ((renderTwice n bs).1.reg.getD i none = some 2 ∨
       (renderTwice n bs).1.reg.getD i none = some 1) := by
  rw [show renderTwice n bs
      = run n ⟨1, List.replicate n none⟩ ⟨pageActs 1 0 n, false⟩
          ⟨Action.reset 2 :: pageActs 2 0 n, false⟩ bs from rfl] at h ⊢
  obtain ⟨hlen, _, hphase⟩ :=
    run_inv n bs ⟨1, List.replicate n none⟩ ⟨pageActs 1 0 n, false⟩
      ⟨Action.reset 2 :: pageActs 2 0 n, false⟩ (inv_init n)
  rcases hphase with ⟨hA1, _, _⟩ | ⟨_, _, hB3, j, hBs, hBall⟩
  · rw [h] at hA1
    exact absurd hA1 (by simp)
  · rcases hBs with hs | hs
    · rw [h] at hs
      have hjn : n ≤ j := by
        by_contra hlt
        push_neg at hlt
        rw [pageActs_cons 2 j n hlt] at hs
        exact List.noConfusion hs
      exact ⟨by omega, fun i hi => hBall i (by omega) hi⟩
    · rw [h] at hs
      exact absurd hs (by simp)

/-- Witness for C2 (amended): one page, a schedule where the second
invocation runs to completion uninterrupted. -/
theorem renderAll_second_generation_wins_witness :
    count1 (renderTwice 1 [false, false, false]).1.reg ≤ 1 :=
  (renderAll_second_generation_wins 1 [false, false, false] (by decide)).1

end Render

end PdfViewHighlight
